import Mathlib

/-!
Verification of the HTTP/1 serializer core (boost::http_proto, `src/serializer.cpp`)
against its natural-language specification.

The development is a shallow embedding of the serializer: bytes are `Nat`s,
buffer sequences are `List (List Nat)`, the two circular scratch buffers
`tmp0`/`tmp1` are byte queues with a fixed total capacity (content view, head
normalized to zero: `commit` appends at the back, `consume` drops from the
front, the available capacity is the total capacity minus the current size),
thrown exceptions are a `Fault` value, and the error-code channel of
`prepare` is an `Err` value.  The pull-`source` body adapter and the
compression filter are modelled as oracles indexed by the call number, so
theorems quantify over every possible source/filter behavior.
-/

namespace HttpProto

/-! ## Chunk framing (serializer.cpp: write_chunk_header, write_chunk_close, write_last_chunk) -/

/-- ASCII code of the hex digit used by write_chunk_header's table
"0123456789ABCDEF". -/
def hexDig (k : Nat) : Nat :=
  if k < 10 then 48 + k else 55 + k

/-- The low `i` nibbles of `sz`, most significant first, exactly as the
backwards-filling loop of `write_chunk_header` produces them. -/
def nibbles : Nat → Nat → List Nat
  | 0, _ => []
  | i + 1, sz => nibbles i (sz / 16) ++ [sz % 16]

/-- The 18 bytes written by `write_chunk_header dest size`: 16 hex digits of
the size then CR LF. -/
def chunkHeaderBytes (sz : Nat) : List Nat :=
  (nibbles 16 sz).map hexDig ++ [13, 10]

/-- The 2 bytes written by `write_chunk_close`. -/
def crlfBytes : List Nat := [13, 10]

/-- The 5 bytes written by `write_last_chunk`. -/
def lastChunkBytes : List Nat := [48, 13, 10, 13, 10]

/-- Uppercase hexadecimal digit, written from the spec's words
("16 uppercase hexadecimal digits"). -/
def specUpperHexDigit (k : Nat) : Nat :=
  if k < 10 then 48 + k else 65 + (k - 10)

/-- The chunk-size line as the spec words it: 16 uppercase hex digits of the
size, zero-padded, most significant digit first, then CRLF. -/
def specChunkSizeLine (n : Nat) : List Nat :=
  ((List.range 16).map fun i => specUpperHexDigit (n / 16 ^ (15 - i) % 16)) ++ [13, 10]

/-- Numeric value of an ASCII hex digit. -/
def hexVal (c : Nat) : Nat :=
  if c < 58 then c - 48 else c - 55

/-- Big-endian value of a list of ASCII hex digits. -/
def decodeHex (l : List Nat) : Nat :=
  l.foldl (fun a c => a * 16 + hexVal c) 0

theorem hexDig_eq_spec (k : Nat) : hexDig k = specUpperHexDigit k := by
  unfold hexDig specUpperHexDigit
  split <;> omega

theorem nibbles_length (i sz : Nat) : (nibbles i sz).length = i := by
  induction i generalizing sz with
  | zero => rfl
  | succ i ih => simp [nibbles, ih]

theorem nibbles_eq_range (i sz : Nat) :
    nibbles i sz = (List.range i).map fun j => sz / 16 ^ (i - 1 - j) % 16 := by
  induction i generalizing sz with
  | zero => rfl
  | succ i ih =>
    rw [nibbles, ih, List.range_succ, List.map_append]
    congr 1
    · apply List.map_congr_left
      intro j hj
      rw [List.mem_range] at hj
      have h1 : i + 1 - 1 - j = (i - 1 - j) + 1 := by omega
      rw [h1, pow_succ, Nat.div_div_eq_div_mul, Nat.mul_comm]
    · simp

theorem nibbles_lt (i sz : Nat) : ∀ d ∈ nibbles i sz, d < 16 := by
  induction i generalizing sz with
  | zero => simp [nibbles]
  | succ i ih =>
    intro d hd
    rw [nibbles, List.mem_append] at hd
    rcases hd with h | h
    · exact ih _ d h
    · simp at h
      omega

theorem hexVal_hexDig (d : Nat) (h : d < 16) : hexVal (hexDig d) = d := by
  unfold hexVal hexDig
  split <;> split <;> omega

theorem foldl_map_hexDig (l : List Nat) (hl : ∀ d ∈ l, d < 16) (a : Nat) :
    (l.map hexDig).foldl (fun x c => x * 16 + hexVal c) a
      = l.foldl (fun x d => x * 16 + d) a := by
  induction l generalizing a with
  | nil => rfl
  | cons d l ih =>
    simp only [List.map_cons, List.foldl_cons]
    rw [hexVal_hexDig d (hl d (by simp))]
    exact ih (fun x hx => hl x (by simp [hx])) _

theorem nibbles_foldl (i sz : Nat) :
    (nibbles i sz).foldl (fun a d => a * 16 + d) 0 = sz % 16 ^ i := by
  induction i generalizing sz with
  | zero => simp [nibbles, Nat.mod_one]
  | succ i ih =>
    rw [nibbles, List.foldl_append, ih]
    simp only [List.foldl_cons, List.foldl_nil]
    rw [pow_succ']
    rw [Nat.mod_mul]
    omega

theorem chunkHeaderBytes_take (n : Nat) :
    (chunkHeaderBytes n).take 16 = (nibbles 16 n).map hexDig := by
  have hlen : ((nibbles 16 n).map hexDig).length = 16 := by
    rw [List.length_map, nibbles_length]
  rw [chunkHeaderBytes, List.take_left' hlen]

theorem chunkHeaderBytes_drop (n : Nat) :
    (chunkHeaderBytes n).drop 16 = [13, 10] := by
  have hlen : ((nibbles 16 n).map hexDig).length = 16 := by
    rw [List.length_map, nibbles_length]
  rw [chunkHeaderBytes, List.drop_left' hlen]

/-- C2: every chunk-size line the serializer emits is exactly 18 bytes
(16 uppercase hex digits, zero-padded, most significant first, encoding the
chunk size modulo 2^64, followed by CRLF); the chunk trailer is the 2-byte
literal CR LF; the last-chunk marker is the 5-byte literal "0\r\n\r\n". -/
theorem chunk_framing_format (n : Nat) :
    chunkHeaderBytes n = specChunkSizeLine n ∧
    (chunkHeaderBytes n).length = 18 ∧
    decodeHex ((chunkHeaderBytes n).take 16) = n % 2 ^ 64 ∧
    (chunkHeaderBytes n).drop 16 = crlfBytes ∧
    crlfBytes = [13, 10] ∧ crlfBytes.length = 2 ∧
    lastChunkBytes = [48, 13, 10, 13, 10] ∧ lastChunkBytes.length = 5 := by
  refine ⟨?_, ?_, ?_, chunkHeaderBytes_drop n, rfl, rfl, rfl, rfl⟩
  · unfold chunkHeaderBytes specChunkSizeLine
    rw [nibbles_eq_range, List.map_map]
    congr 1
    apply List.map_congr_left
    intro j _
    simp only [Function.comp]
    rw [hexDig_eq_spec]
  · simp [chunkHeaderBytes, nibbles_length]
  · rw [chunkHeaderBytes_take, decodeHex]
    rw [foldl_map_hexDig _ (nibbles_lt 16 n), nibbles_foldl]
    norm_num

/-! ## Serializer state

A `SrSt` mirrors the data members of `serializer` that the public operations
read and write.  `out` is the output view: the remaining byte-range
descriptors, slot contents inlined (`consume_buffers` advances across them).
`atHeader` mirrors the test `out_.data() == hp_`, and `hpSize` mirrors
`hp_->size()` (the header slot is mutated in place by partial consumes and
left stale once the view advances past it, exactly as in the source). -/

inductive Fault where
  | logicError
  | invalidArgument
  | lengthError
deriving DecidableEq, Repr

inductive Err where
  | expect100Continue
  | needData
  | srcError (ec : Nat)
deriving DecidableEq, Repr

inductive Style where
  | noStyle
  | empty
  | buffers
  | source
  | stream
deriving DecidableEq, Repr

structure SrSt where
  st : Style
  isDone : Bool
  isChunked : Bool
  isCompressed : Bool
  isExpectContinue : Bool
  more : Bool
  filterDone : Bool
  atHeader : Bool
  hpSize : Nat
  out : List (List Nat)
  tmp0 : List Nat
  tmp0cap : Nat
  buf : List (List Nat)
  tmp1 : List Nat
  tmp1cap : Nat
  ws : Nat
  wsCap : Nat
  srcIdx : Nat
  filtIdx : Nat
deriving DecidableEq, Repr

/-- Result of one `source::read` call (serializer.hpp source adapter
contract); `data.length` plays the role of `bytes`. -/
structure SrcResult where
  data : List Nat
  finished : Bool
  ec : Nat
deriving DecidableEq, Repr

/-- Result of one `filter::on_process` call; `out` is the bytes written into
the output window, `inBytes` the amount of input consumed. -/
structure FiltStep where
  inBytes : Nat
  out : List Nat
  finished : Bool
deriving DecidableEq, Repr

/-- What a `prepare` call produces: a thrown exception, an error code on the
result channel, or a buffer view (flattened to its byte contents). -/
inductive PrepOut where
  | fault (f : Fault)
  | err (e : Err)
  | view (v : List Nat)
deriving DecidableEq, Repr

/-- serializer.cpp `consume_buffers`: advance a buffer array past `n` bytes,
discarding fully consumed descriptors; overrunning the array is a
precondition violation (`throw_invalid_argument`). -/
def consumeBuffers : List (List Nat) → Nat → Except Fault (List (List Nat))
  | [], b => if 0 < b then .error .invalidArgument else .ok []
  | l :: ls, b =>
    if b < l.length then .ok (l.drop b :: ls) else consumeBuffers ls (b - l.length)

/-- The style-dispatch part of `serializer::consume` (the switch at
serializer.cpp lines 477-513), applied after the header handling. -/
def consumeStyle (s : SrSt) (n : Nat) : Except Fault SrSt :=
  match s.st with
  | .noStyle | .empty =>
    match consumeBuffers s.out n with
    | .error f => .error f
    | .ok out1 => .ok { s with out := out1, isDone := out1.isEmpty }
  | .buffers =>
    if s.isCompressed then
      let t := s.tmp0.drop n
      .ok { s with tmp0 := t, isDone := t.isEmpty && s.filterDone }
    else
      match consumeBuffers s.out n with
      | .error f => .error f
      | .ok out1 => .ok { s with out := out1, isDone := out1.isEmpty }
  | .source | .stream =>
    let t := s.tmp0.drop n
    let d := (!s.isCompressed && t.isEmpty && !s.more) ||
      (s.isCompressed && t.isEmpty && s.filterDone)
    .ok { s with tmp0 := t, isDone := d }

/-- serializer.cpp `serializer::consume`. -/
def consume (s : SrSt) (n : Nat) : Except Fault SrSt :=
  if s.isDone then .error .logicError
  else if s.isExpectContinue then
    if s.hpSize < n then .error .invalidArgument
    else
      match consumeBuffers s.out n with
      | .error f => .error f
      | .ok out1 =>
        let ah := s.atHeader && decide (n < s.hpSize)
        let hs := if s.atHeader && decide (n < s.hpSize) then s.hpSize - n else s.hpSize
        .ok { s with out := out1, atHeader := ah, hpSize := hs }
  else if s.atHeader then
    if n < s.hpSize then
      match consumeBuffers s.out n with
      | .error f => .error f
      | .ok out1 => .ok { s with out := out1, hpSize := s.hpSize - n }
    else
      match consumeBuffers s.out s.hpSize with
      | .error f => .error f
      | .ok out1 => consumeStyle { s with out := out1, atHeader := false } (n - s.hpSize)
  else consumeStyle s n

/-- The flattened bytes of the output view that `prepare` returns for the
source/stream/compressed paths: the header slot while the view still holds
it, followed by the contents of `tmp0`. -/
def viewOf (s : SrSt) : List Nat :=
  (if s.atHeader then s.out.headD [] else []) ++ s.tmp0

/-! ## The compressed prepare path (serializer.cpp lines 159-343)

The filter is an oracle `ofilt : Nat → Nat → FiltStep` mapping the call
number and the size of the output window it is handed to the step result.
The driving loop terminates in the source either by filling the output
window or by a step that produces no output; the embedding uses fuel and
returns `none` when the fuel runs out, so theorems about it quantify over
terminating executions. -/

/-- Result of the filter-driving loop: the new `tmp0` contents, the
`filter_done` flag, the input-side state (`buf` for buffers style, `tmp1`
otherwise, plus `more`), the next filter call number, the accumulated
`num_written`, and the trace of filter steps taken. -/
structure LoopRes where
  tmp0 : List Nat
  fd : Bool
  buf : List (List Nat)
  tmp1 : List Nat
  more : Bool
  k : Nat
  nw : Nat
  trace : List FiltStep
deriving DecidableEq, Repr

/-- The `get_output` window: the space prepare-able in tmp0, minus the
CRLF + last-chunk reserve when chunked (empty when that reserve plus one
byte does not fit). -/
def outWindow (chunked : Bool) (cap len : Nat) : Nat :=
  let free := cap - len
  if chunked then (if free < 2 + 5 + 1 then 0 else free - 2 - 5) else free

/-- The for(;;) loop of the compressed `prepare` path: compute the output
window (`get_output`), stop when it is empty (a logic fault if nothing was
produced at all), otherwise run the filter, record `finished`, consume the
input it ate (`get_input`/`consume`), stop when it wrote nothing, else
commit its output and repeat. -/
def filtLoop (ofilt : Nat → Nat → FiltStep) (isBuffers chunked : Bool) (cap : Nat) :
    Nat → Nat → List Nat → Bool → List (List Nat) → List Nat → Bool → Nat →
    List FiltStep → Option (Except Fault LoopRes)
  | 0, _, _, _, _, _, _, _, _ => none
  | fuel + 1, k, t0, fd, bufs, t1, more, nw, tr =>
    let window := outWindow chunked cap t0.length
    if window = 0 then
      if t0.length = 0 then some (.error .logicError)
      else some (.ok ⟨t0, fd, bufs, t1, more, k, nw, tr⟩)
    else
      let stp := ofilt k window
      let fd1 := fd || stp.finished
      match (if isBuffers then consumeBuffers bufs stp.inBytes else .ok bufs) with
      | .error f => some (.error f)
      | .ok bufs1 =>
        let more1 := if isBuffers && decide (bufs1.flatten.length = 0) then false else more
        let t11 := if isBuffers then t1 else t1.drop stp.inBytes
        if stp.out.length = 0 then
          some (.ok ⟨t0, fd1, bufs1, t11, more1, k + 1, nw, tr ++ [stp]⟩)
        else
          filtLoop ofilt isBuffers chunked cap fuel (k + 1) (t0 ++ stp.out) fd1 bufs1 t11
            more1 (nw + stp.out.length) (tr ++ [stp])

/-- The `is_compressed_` branch of `serializer::prepare`: precondition drain
check, minimum-capacity check (chunked overhead + zlib flush marker + one
byte), the source pre-read into `tmp1`, the 18-byte chunk header
reservation, the filter loop, the chunk-header backfill, the CRLF trailer,
and the last-chunk on `filter_done`. -/
def prepareCompressed (osrc : Nat → Nat → SrcResult) (ofilt : Nat → Nat → FiltStep)
    (fuel : Nat) (s : SrSt) : Option (PrepOut × SrSt) :=
  if 0 < s.tmp0.length then some (.fault .logicError, s)
  else if s.tmp0cap < 25 + 6 + 1 then some (.fault .lengthError, s)
  else
    let s0 := if s.st = Style.source then
        let rv := osrc s.srcIdx (s.tmp1cap - s.tmp1.length)
        { s with srcIdx := s.srcIdx + 1, more := !rv.finished, tmp1 := s.tmp1 ++ rv.data }
      else s
    if s.isChunked && decide (s.tmp0cap - s.tmp0.length < 18) then
      some (.fault .logicError, s0)
    else
      let t0init := if s.isChunked then List.replicate 18 0 else []
      match filtLoop ofilt (decide (s.st = Style.buffers)) s.isChunked s.tmp0cap fuel
          s0.filtIdx t0init s0.filterDone s0.buf s0.tmp1 s0.more 0 [] with
      | none => none
      | some (.error f) => some (.fault f, s0)
      | some (.ok r) =>
        let t0fin := if s.isChunked then
            chunkHeaderBytes r.nw ++ r.tmp0.drop 18 ++ crlfBytes ++
              (if r.fd then lastChunkBytes else [])
          else r.tmp0
        let s1 := { s0 with tmp0 := t0fin, filterDone := r.fd, buf := r.buf, tmp1 := r.tmp1, more := r.more, filtIdx := r.k }
        some (.view (viewOf s1), s1)

/-- serializer.cpp `serializer::prepare` after the done / expect-continue
checks: the compressed branch, then the per-style dispatch. -/
def prepareActive (osrc : Nat → Nat → SrcResult) (ofilt : Nat → Nat → FiltStep)
    (fuel : Nat) (s : SrSt) : Option (PrepOut × SrSt) :=
  if s.isCompressed then prepareCompressed osrc ofilt fuel s
  else
    match s.st with
    | .empty => some (.view s.out.flatten, s)
    | .buffers => some (.view s.out.flatten, s)
    | .source =>
      if s.more then
        if !s.isChunked then
          let free := s.tmp0cap - s.tmp0.length
          let rv := osrc s.srcIdx free
          let s1 := { s with srcIdx := s.srcIdx + 1, tmp0 := s.tmp0 ++ rv.data }
          if rv.ec ≠ 0 then some (.err (.srcError rv.ec), s1)
          else
            let s2 := { s1 with more := !rv.finished }
            some (.view (viewOf s2), s2)
        else
          if 25 < s.tmp0cap - s.tmp0.length then
            let rv := osrc s.srcIdx (s.tmp0cap - s.tmp0.length - 2 - 5 - 18)
            let s1 := { s with srcIdx := s.srcIdx + 1 }
            if rv.ec ≠ 0 then some (.err (.srcError rv.ec), s1)
            else
              let t1 := if rv.data.length ≠ 0 then
                  s.tmp0 ++ chunkHeaderBytes rv.data.length ++ rv.data ++ crlfBytes
                else s.tmp0
              let t2 := if rv.finished then t1 ++ lastChunkBytes else t1
              let m2 := if rv.finished then false else s.more
              let s2 := { s1 with tmp0 := t2, more := m2 }
              some (.view (viewOf s2), s2)
          else some (.view (viewOf s), s)
      else some (.view (viewOf s), s)
    | .stream =>
      if s.tmp0.isEmpty && s.more then some (.err .needData, s)
      else some (.view (viewOf s), s)
    | .noStyle => some (.fault .logicError, s)

/-- serializer.cpp `serializer::prepare`. -/
def prepare (osrc : Nat → Nat → SrcResult) (ofilt : Nat → Nat → FiltStep)
    (fuel : Nat) (s : SrSt) : Option (PrepOut × SrSt) :=
  if s.isDone then some (.fault .logicError, s)
  else if s.isExpectContinue then
    if s.atHeader then some (.view (s.out.headD []), s)
    else some (.err .expect100Continue, { s with isExpectContinue := false })
  else prepareActive osrc ofilt fuel s

/-! ## Starting a message (serializer.cpp lines 529-752)

`fspace` is the number of workspace bytes the compression service's filter
object takes (`make_deflate_filter`/`make_gzip_filter` carve it from `ws_`);
it is a parameter because the zlib service is external to the core. -/

/-- The message metadata the serializer consumes: a contiguous header byte
range, `transfer_encoding.is_chunked`, whether the content coding is
identity, and `expect.is_100_continue`. -/
structure Msg where
  header : List Nat
  chunked : Bool
  identity : Bool
  expect100 : Bool
deriving DecidableEq, Repr

/-- serializer.cpp `serializer::reset`. -/
def resetSr (s : SrSt) : SrSt :=
  { s with
    ws := s.wsCap, more := false, isDone := false, isChunked := false,
    isExpectContinue := false, isCompressed := false, filterDone := false }

/-- serializer.cpp `serializer::start_init`: reset, then derive the
per-message flags from the metadata; a non-identity coding allocates the
filter from the workspace. -/
def start_init (s : SrSt) (m : Msg) (fspace : Nat) : Except Fault SrSt :=
  let s1 := resetSr s
  let s2 := { s1 with
    isDone := false, isExpectContinue := m.expect100,
    isChunked := m.chunked, isCompressed := !m.identity, filtIdx := 0 }
  if m.identity then .ok s2
  else if s2.ws < fspace then .error .lengthError
  else .ok { s2 with ws := s2.ws - fspace }

/-- serializer.cpp `serializer::start_empty`. -/
def start_empty (s : SrSt) (m : Msg) (fspace : Nat) : Except Fault SrSt :=
  match start_init s m fspace with
  | .error f => .error f
  | .ok s1 =>
    let s2 := { s1 with st := Style.empty }
    if !s2.isChunked then
      .ok { s2 with out := [m.header], atHeader := true, hpSize := m.header.length }
    else if s2.ws < 5 then .error .lengthError
    else .ok { s2 with out := [m.header, lastChunkBytes], atHeader := true, hpSize := m.header.length, ws := s2.ws - 5 }

/-- Modelled from the spec: the public buffers-body `start` overload lives in
serializer.hpp, which is not under src/; per the spec's lifecycle
("start_X (sets style, resets flags)") it performs `start_init` and stores
the caller's buffer sequence before delegating to the body of
`serializer::start_buffers` (serializer.cpp lines 608-686), which reads the
freshly derived flags. -/
def start_buffers (s : SrSt) (m : Msg) (bufs : List (List Nat)) (fspace : Nat) :
    Except Fault SrSt :=
  match start_init s m fspace with
  | .error f => .error f
  | .ok s1 =>
    let s2 := { s1 with st := Style.buffers, buf := bufs }
    if s2.isCompressed then
      .ok { s2 with out := [m.header], atHeader := true, hpSize := m.header.length, tmp0 := [], tmp0cap := s2.ws, more := true }
    else if !s2.isChunked then
      .ok { s2 with out := m.header :: bufs, atHeader := true, hpSize := m.header.length }
    else if s2.ws < 18 + 7 then .error .lengthError
    else
      let slots := m.header :: chunkHeaderBytes bufs.flatten.length :: (bufs ++ [crlfBytes ++ lastChunkBytes])
      .ok { s2 with out := slots, atHeader := true, hpSize := m.header.length, ws := s2.ws - 25 }

/-- Modelled from the spec: the public source-body `start` overload lives in
serializer.hpp, which is not under src/; per the spec's lifecycle
("start_X (sets style, resets flags)") it performs `start_init` and binds
the source handle before delegating to the body of
`serializer::start_source` (serializer.cpp lines 688-718). -/
def start_source (s : SrSt) (m : Msg) (fspace : Nat) : Except Fault SrSt :=
  match start_init s m fspace with
  | .error f => .error f
  | .ok s1 =>
    let s2 := { s1 with st := Style.source, srcIdx := 0 }
    let s3 := if s2.isCompressed then
        { s2 with tmp1 := [], tmp1cap := s2.ws / 2, ws := s2.ws - s2.ws / 2 }
      else s2
    if s3.ws < 18 + 1 + 2 + 5 then .error .lengthError
    else .ok { s3 with tmp0 := [], tmp0cap := s3.ws, out := [m.header], atHeader := true, hpSize := m.header.length, more := true }

/-- serializer.cpp `serializer::start_stream`. -/
def start_stream (s : SrSt) (m : Msg) (fspace : Nat) : Except Fault SrSt :=
  match start_init s m fspace with
  | .error f => .error f
  | .ok s1 =>
    let s2 := { s1 with st := Style.stream }
    let s3 := if s2.isCompressed then
        { s2 with tmp1 := [], tmp1cap := s2.ws / 2, ws := s2.ws - s2.ws / 2 }
      else s2
    if s3.ws < 18 + 1 + 2 + 5 then .error .lengthError
    else .ok { s3 with tmp0 := [], tmp0cap := s3.ws, out := [m.header], atHeader := true, hpSize := m.header.length, more := true }

/-! ## Stream sub-API (serializer.cpp lines 756-864)

Faults are reported as `(some fault, state at the throw)`, so a faulting
call visibly leaves the serializer state unchanged. -/

/-- serializer.cpp `serializer::stream::commit`: `data` is the bytes the
caller wrote into the prepared window, `n` its length. -/
def streamCommit (s : SrSt) (n : Nat) (data : List Nat) : Option Fault × SrSt :=
  if s.isCompressed then
    if s.tmp1cap - s.tmp1.length < n then (some .lengthError, s)
    else (none, { s with tmp1 := s.tmp1 ++ data })
  else if !s.isChunked then
    if s.tmp0cap - s.tmp0.length < n then (some .lengthError, s)
    else (none, { s with tmp0 := s.tmp0 ++ data })
  else if n = 0 then (some .logicError, s)
  else if s.tmp0cap - s.tmp0.length < n + 18 then (some .lengthError, s)
  else
    let t := s.tmp0 ++ chunkHeaderBytes n ++ data
    if s.tmp0cap - t.length < 2 then (some .lengthError, { s with tmp0 := t })
    else (none, { s with tmp0 := t ++ crlfBytes })

/-- serializer.cpp `serializer::stream::close`. -/
def streamClose (s : SrSt) : Option Fault × SrSt :=
  if !s.more then (some .logicError, s)
  else if s.isChunked && !s.isCompressed then
    if s.tmp0cap - s.tmp0.length < 5 then (some .lengthError, s)
    else (none, { s with tmp0 := s.tmp0 ++ lastChunkBytes, more := false })
  else (none, { s with more := false })

/-! ## Driving a whole message -/

/-- One full serialization session: for each entry `n` of `ns`, call
`prepare`, deliver the first `n` bytes of the returned view, and
acknowledge them with `consume n`.  Returns the concatenation of all
delivered bytes and the final state; `none` if fuel ran out, a fault was
raised, or `prepare` reported an error code. -/
def session (osrc : Nat → Nat → SrcResult) (ofilt : Nat → Nat → FiltStep)
    (fuel : Nat) : SrSt → List Nat → Option (List Nat × SrSt)
  | s, [] => some ([], s)
  | s, n :: ns =>
    match prepare osrc ofilt fuel s with
    | some (.view v, s1) =>
      match consume s1 n with
      | .ok s2 =>
        match session osrc ofilt fuel s2 ns with
        | some (d, sf) => some (v.take n ++ d, sf)
        | none => none
      | .error _ => none
    | _ => none

/-! ## Theorems -/

theorem start_init_flags (s : SrSt) (m : Msg) (fspace : Nat) (s1 : SrSt)
    (h : start_init s m fspace = .ok s1) :
    s1.isDone = false ∧ s1.isChunked = m.chunked ∧
    s1.isExpectContinue = m.expect100 ∧ s1.isCompressed = (!m.identity) := by
  unfold start_init resetSr at h
  dsimp only at h
  split at h
  · cases h
    simp
  · split at h
    · cases h
    · cases h
      simp

/-- C7: every start operation resets the per-message flags and re-derives
them from the supplied message's metadata: whichever of start_empty,
start_buffers, start_source, start_stream succeeds, the resulting state has
is_done false and is_chunked, is_expect_continue, is_compressed equal to
the values implied by the message's transfer-encoding, expect and
content-coding metadata, regardless of the prior state. -/
theorem start_resets_flags (s : SrSt) (m : Msg) (bufs : List (List Nat))
    (fspace : Nat) (s' : SrSt)
    (h : start_empty s m fspace = .ok s' ∨ start_buffers s m bufs fspace = .ok s' ∨
      start_source s m fspace = .ok s' ∨ start_stream s m fspace = .ok s') :
    s'.isDone = false ∧ s'.isChunked = m.chunked ∧
    s'.isExpectContinue = m.expect100 ∧ s'.isCompressed = (!m.identity) := by
  rcases h with h | h | h | h
  · unfold start_empty at h
    rcases h1 : start_init s m fspace with f | s1
    · rw [h1] at h
      cases h
    · rw [h1] at h
      have hf := start_init_flags s m fspace s1 h1
      dsimp only at h
      split at h
      · cases h
        simpa using hf
      · split at h
        · cases h
        · cases h
          simpa using hf
  · unfold start_buffers at h
    rcases h1 : start_init s m fspace with f | s1
    · rw [h1] at h
      cases h
    · rw [h1] at h
      have hf := start_init_flags s m fspace s1 h1
      dsimp only at h
      split at h
      · cases h
        simpa using hf
      · split at h
        · cases h
          simpa using hf
        · split at h
          · cases h
          · cases h
            simpa using hf
  · unfold start_source at h
    rcases h1 : start_init s m fspace with f | s1
    · rw [h1] at h
      cases h
    · rw [h1] at h
      have hf := start_init_flags s m fspace s1 h1
      dsimp only at h
      split at h <;> split at h <;> cases h <;> simpa using hf
  · unfold start_stream at h
    rcases h1 : start_init s m fspace with f | s1
    · rw [h1] at h
      cases h
    · rw [h1] at h
      have hf := start_init_flags s m fspace s1 h1
      dsimp only at h
      split at h <;> split at h <;> cases h <;> simpa using hf

/-- Witness for start_resets_flags at a concrete prior state and message. -/
def dirtySt : SrSt :=
  { st := Style.stream, isDone := true, isChunked := true, isCompressed := true,
    isExpectContinue := true, more := true, filterDone := true, atHeader := false,
    hpSize := 9, out := [[1, 2]], tmp0 := [3], tmp0cap := 64, buf := [[4]],
    tmp1 := [5], tmp1cap := 8, ws := 10, wsCap := 100, srcIdx := 7, filtIdx := 7 }

def msgW : Msg := { header := [72, 73], chunked := false, identity := true, expect100 := false }

theorem start_resets_flags_witness :
    ∃ s', start_empty dirtySt msgW 0 = .ok s' ∧
      (s'.isDone = false ∧ s'.isChunked = msgW.chunked ∧
       s'.isExpectContinue = msgW.expect100 ∧ s'.isCompressed = (!msgW.identity)) := by
  refine ⟨_, rfl, ?_⟩
  exact start_resets_flags dirtySt msgW [] 0 _ (Or.inl rfl)

/-- C6: each listed misuse raises a synchronous precondition fault (a thrown
exception, not an error-code result): prepare or consume after is_done;
consume(n) with n exceeding the header size while is_expect_continue holds;
stream commit of a zero-length chunk in chunked uncompressed mode; and
prepare in compressed mode while tmp0 is not drained. -/
theorem precondition_faults (osrc : Nat → Nat → SrcResult) (ofilt : Nat → Nat → FiltStep)
    (fuel : Nat) (s : SrSt) (n : Nat) :
    (s.isDone = true →
      prepare osrc ofilt fuel s = some (.fault .logicError, s) ∧
      consume s n = .error .logicError) ∧
    (s.isDone = false → s.isExpectContinue = true → s.hpSize < n →
      consume s n = .error .invalidArgument) ∧
    (s.isCompressed = false → s.isChunked = true →
      streamCommit s 0 [] = (some .logicError, s)) ∧
    (s.isDone = false → s.isExpectContinue = false → s.isCompressed = true →
      0 < s.tmp0.length →
      prepare osrc ofilt fuel s = some (.fault .logicError, s)) := by
  refine ⟨?_, ?_, ?_, ?_⟩
  · intro hd
    constructor
    · simp [prepare, hd]
    · simp [consume, hd]
  · intro hd he hn
    simp [consume, hd, he, hn]
  · intro hc hch
    simp [streamCommit, hc, hch]
  · intro hd he hc ht
    simp [prepare, prepareActive, prepareCompressed, hd, he, hc, ht]

/-- Witness for precondition_faults with each hypothesis discharged at a
concrete state. -/
def doneSt : SrSt :=
  { dirtySt with isDone := true }

def expectSt : SrSt :=
  { dirtySt with isDone := false, isExpectContinue := true, hpSize := 3 }

def chunkedStreamSt : SrSt :=
  { dirtySt with isCompressed := false, isChunked := true, st := Style.stream }

def undrainedSt : SrSt :=
  { dirtySt with
    isDone := false, isExpectContinue := false, isCompressed := true, tmp0 := [1, 2] }

theorem precondition_faults_witness :
    (prepare (fun _ _ => ⟨[], true, 0⟩) (fun _ _ => ⟨0, [], true⟩) 1 doneSt
        = some (.fault .logicError, doneSt) ∧
      consume doneSt 0 = .error .logicError) ∧
    consume expectSt 4 = .error .invalidArgument ∧
    streamCommit chunkedStreamSt 0 [] = (some .logicError, chunkedStreamSt) ∧
    prepare (fun _ _ => ⟨[], true, 0⟩) (fun _ _ => ⟨0, [], true⟩) 1 undrainedSt
        = some (.fault .logicError, undrainedSt) := by
  have h1 := precondition_faults (fun _ _ => ⟨[], true, 0⟩) (fun _ _ => ⟨0, [], true⟩) 1 doneSt 0
  have h2 := precondition_faults (fun _ _ => ⟨[], true, 0⟩) (fun _ _ => ⟨0, [], true⟩) 1 expectSt 4
  have h3 := precondition_faults (fun _ _ => ⟨[], true, 0⟩) (fun _ _ => ⟨0, [], true⟩) 1 chunkedStreamSt 0
  have h4 := precondition_faults (fun _ _ => ⟨[], true, 0⟩) (fun _ _ => ⟨0, [], true⟩) 1 undrainedSt 0
  refine ⟨h1.1 rfl, h2.2.1 rfl rfl (by decide), h3.2.2.1 rfl rfl, h4.2.2.2 rfl rfl rfl (by decide)⟩

/-- C10: stream close when `more` is already false (a second close in
particular) raises a synchronous logic fault and leaves the serializer
state unchanged; a first close on an open stream does not fault (in chunked
uncompressed mode this relies on the 5-byte last-chunk reserve that
stream prepare and commit always leave available). -/
theorem stream_close_faults (s : SrSt) :
    (s.more = false → streamClose s = (some .logicError, s)) ∧
    (s.more = true →
      (s.isChunked = true → s.isCompressed = false →
        5 ≤ s.tmp0cap - s.tmp0.length) →
      (streamClose s).1 = none ∧ (streamClose s).2.more = false ∧
      streamClose (streamClose s).2 = (some .logicError, (streamClose s).2)) := by
  constructor
  · intro hm
    simp [streamClose, hm]
  · intro hm hres
    rcases hch : s.isChunked with _ | _
    · have hclose : streamClose s = (none, { s with more := false }) := by
        simp [streamClose, hm, hch]
      rw [hclose]
      refine ⟨rfl, rfl, ?_⟩
      simp [streamClose]
    · rcases hco : s.isCompressed with _ | _
      · have hcap := hres hch hco
        have hclose : streamClose s
            = (none, { s with tmp0 := s.tmp0 ++ lastChunkBytes, more := false }) := by
          rw [streamClose]
          simp [hm, hch, hco]
          omega
        rw [hclose]
        refine ⟨rfl, rfl, ?_⟩
        simp [streamClose]
      · have hclose : streamClose s = (none, { s with more := false }) := by
          simp [streamClose, hm, hch, hco]
        rw [hclose]
        refine ⟨rfl, rfl, ?_⟩
        simp [streamClose]

/-- Witness for stream_close_faults: a concrete open chunked uncompressed
stream state with the last-chunk reserve available. -/
def openStreamSt : SrSt :=
  { dirtySt with
    st := Style.stream, isDone := false, isChunked := true, isCompressed := false,
    more := true, tmp0 := [65], tmp0cap := 64 }

theorem stream_close_faults_witness :
    (streamClose openStreamSt).1 = none ∧ (streamClose openStreamSt).2.more = false ∧
    streamClose (streamClose openStreamSt).2
      = (some .logicError, (streamClose openStreamSt).2) := by
  exact (stream_close_faults openStreamSt).2 rfl (fun _ _ => by decide)

theorem prepareCompressed_not_expect (osrc : Nat → Nat → SrcResult)
    (ofilt : Nat → Nat → FiltStep) (fuel : Nat) (s : SrSt) (r : PrepOut) (t : SrSt)
    (h : prepareCompressed osrc ofilt fuel s = some (r, t)) :
    r ≠ PrepOut.err .expect100Continue := by
  unfold prepareCompressed at h
  dsimp only at h
  split at h
  · cases h
    simp
  · split at h
    · cases h
      simp
    · split at h
      · cases h
        simp
      · split at h
        · cases h
        · cases h
          simp
        · cases h
          simp

theorem prepareActive_not_expect (osrc : Nat → Nat → SrcResult)
    (ofilt : Nat → Nat → FiltStep) (fuel : Nat) (s : SrSt) (r : PrepOut) (t : SrSt)
    (h : prepareActive osrc ofilt fuel s = some (r, t)) :
    r ≠ PrepOut.err .expect100Continue := by
  unfold prepareActive at h
  split at h
  · exact prepareCompressed_not_expect osrc ofilt fuel s r t h
  · split at h <;> (try dsimp only at h) <;> (try (repeat' split at h)) <;> cases h <;> simp

/-- C5: with Expect: 100-continue metadata, every prepare while the output
view still points at the header returns a view of just the (remaining)
header range; after the header is fully consumed the next prepare clears
is_expect_continue and returns the sentinel error expect_100_continue; and
the prepare after that never yields that sentinel again, proceeding instead
to the selected style's normal delivery. -/
theorem expect_continue_protocol (osrc : Nat → Nat → SrcResult)
    (ofilt : Nat → Nat → FiltStep) (fuel : Nat) (s : SrSt)
    (hd : s.isDone = false) (he : s.isExpectContinue = true) :
    (s.atHeader = true → prepare osrc ofilt fuel s = some (.view (s.out.headD []), s)) ∧
    (s.atHeader = false →
      prepare osrc ofilt fuel s
        = some (.err .expect100Continue, { s with isExpectContinue := false }) ∧
      ∀ r t, prepare osrc ofilt fuel { s with isExpectContinue := false } = some (r, t) →
        r ≠ PrepOut.err .expect100Continue) := by
  constructor
  · intro ha
    simp [prepare, hd, he, ha]
  · intro ha
    constructor
    · simp [prepare, hd, he, ha]
    · intro r t h
      rw [prepare] at h
      simp only [SrSt.mk.injEq] at h
      simp [hd] at h
      exact prepareActive_not_expect _ _ _ _ _ _ h

def osrcW : Nat → Nat → SrcResult := fun _ _ => ⟨[], true, 0⟩

def ofiltW : Nat → Nat → FiltStep := fun _ _ => ⟨0, [], true⟩

/-- Witness for expect_continue_protocol: a concrete state whose header has
been consumed. -/
def expectConsumedSt : SrSt :=
  { dirtySt with
    st := Style.buffers, isDone := false, isExpectContinue := true, atHeader := false,
    isCompressed := false, isChunked := false }

theorem expect_continue_protocol_witness :
    prepare osrcW ofiltW 1 expectConsumedSt
      = some (.err .expect100Continue, { expectConsumedSt with isExpectContinue := false }) := by
  exact ((expect_continue_protocol osrcW ofiltW 1 expectConsumedSt rfl rfl).2 rfl).1

/-! ## C4: when consume reaches is_done -/

/-- The condition under which `consume` sets `is_done`, per style of the
incoming state (the amended form: the empty style uses the
output-view-empty rule regardless of compression, matching the switch's
default/empty branch). -/
def doneCond (s s' : SrSt) : Prop :=
  match s.st with
  | .noStyle | .empty => s'.out = []
  | .buffers =>
    if s.isCompressed = true then s'.tmp0 = [] ∧ s'.filterDone = true else s'.out = []
  | .source | .stream =>
    s'.tmp0 = [] ∧ (if s.isCompressed = true then s'.filterDone = true else s'.more = false)

theorem consumeStyle_done (s : SrSt) (n : Nat) (s' : SrSt)
    (h : consumeStyle s n = .ok s') : (s'.isDone = true ↔ doneCond s s') := by
  unfold consumeStyle at h
  split at h
  case h_1 x heq =>
    split at h
    · cases h
    · cases h
      simp [doneCond, heq, List.isEmpty_iff]
  case h_2 x heq =>
    split at h
    · cases h
    · cases h
      simp [doneCond, heq, List.isEmpty_iff]
  case h_3 x heq =>
    split at h
    next hcomp =>
      cases h
      simp [doneCond, heq, hcomp, List.isEmpty_iff, Bool.and_eq_true]
    next hcomp =>
      split at h
      · cases h
      · cases h
        simp only [doneCond, heq]
        rw [if_neg hcomp]
        simp [List.isEmpty_iff]
  case h_4 x heq =>
    dsimp only at h
    cases h
    rcases hco : s.isCompressed with _ | _ <;>
      simp [doneCond, heq, hco, List.isEmpty_iff, Bool.and_eq_true]
  case h_5 x heq =>
    dsimp only at h
    cases h
    rcases hco : s.isCompressed with _ | _ <;>
      simp [doneCond, heq, hco, List.isEmpty_iff, Bool.and_eq_true]

theorem consumeStyle_preserves (s : SrSt) (n : Nat) (s' : SrSt)
    (h : consumeStyle s n = .ok s') :
    s'.st = s.st ∧ s'.isCompressed = s.isCompressed := by
  unfold consumeStyle at h
  split at h <;> (try split at h) <;> (try split at h) <;> (try dsimp only at h) <;>
    cases h <;> simp

/-- C4 (amended): after a successful consume that is not an expect-continue
consume and that reaches past the remaining header, is_done is set exactly
under the per-style conditions of `doneCond` (empty style: output view
empty, also when a compression filter is configured; uncompressed buffers:
output view empty; uncompressed source/stream: tmp0 drained and more false;
compressed buffers/source/stream: tmp0 drained and filter_done); a consume
in expect-continue mode or one that stays inside the header never sets
is_done. -/
theorem consume_done_condition (s : SrSt) (n : Nat) (s' : SrSt)
    (hc : consume s n = .ok s') :
    (s.isExpectContinue = false → (s.atHeader = true → s.hpSize ≤ n) →
      (s'.isDone = true ↔ doneCond s s')) ∧
    ((s.isExpectContinue = true ∨ (s.atHeader = true ∧ n < s.hpSize)) →
      s'.isDone = false) := by
  unfold consume at hc
  split at hc
  · cases hc
  · rename ¬s.isDone = true => hd
    split at hc
    · rename s.isExpectContinue = true => he
      split at hc
      · cases hc
      · split at hc
        · cases hc
        · cases hc
          constructor
          · intro hne
            rw [he] at hne
            cases hne
          · intro _
            simpa using Bool.not_eq_true _ |>.mp hd
    · rename ¬s.isExpectContinue = true => he
      split at hc
      · rename s.atHeader = true => ha
        split at hc
        · rename n < s.hpSize => hn
          split at hc
          · cases hc
          · cases hc
            constructor
            · intro _ hle
              exact absurd (hle ha) (by omega)
            · intro _
              simpa using Bool.not_eq_true _ |>.mp hd
        · split at hc
          · cases hc
          · rename_i out1 _
            have hpres := consumeStyle_preserves _ _ _ hc
            have hdone := consumeStyle_done _ _ _ hc
            constructor
            · intro _ _
              have : doneCond { s with out := out1, atHeader := false } s' = doneCond s s' := by
                unfold doneCond
                rfl
              rw [← this]
              exact hdone
            · intro hcontra
              rcases hcontra with hcontra | hcontra
              · exact absurd hcontra he
              · rename ¬n < s.hpSize => hn
                exact absurd hcontra.2 hn
      · rename ¬s.atHeader = true => ha
        have hdone := consumeStyle_done _ _ _ hc
        constructor
        · intro _ _
          exact hdone
        · intro hcontra
          rcases hcontra with hcontra | hcontra
          · exact absurd hcontra he
          · exact absurd hcontra.1 ha

/-- The literal reading of the claimed done conditions, with the clause
"for every compressed style" covering every style whose state is
compressed, and with no proviso about partially consumed headers. -/
def consumeDoneClaimLiteral : Prop :=
  ∀ s n s', consume s n = .ok s' →
    (s'.isDone = true ↔
      (((s.st = Style.empty ∨ (s.st = Style.buffers ∧ s.isCompressed = false)) ∧
          s'.out = []) ∨
       ((s.st = Style.source ∨ s.st = Style.stream) ∧ s.isCompressed = false ∧
          s'.tmp0 = [] ∧ s'.more = false) ∨
       (s.isCompressed = true ∧ s'.tmp0 = [] ∧ s'.filterDone = true)))

/-- Counterexample state: an uncompressed source whose source already
finished with an empty body (tmp0 drained, more false) and whose header is
only partially consumed by the next consume call. -/
def midHeaderSt : SrSt :=
  { st := Style.source, isDone := false, isChunked := false, isCompressed := false,
    isExpectContinue := false, more := false, filterDone := false, atHeader := true,
    hpSize := 2, out := [[53, 54]], tmp0 := [], tmp0cap := 26, buf := [], tmp1 := [],
    tmp1cap := 0, ws := 26, wsCap := 64, srcIdx := 1, filtIdx := 0 }

def midHeaderSt' : SrSt :=
  { midHeaderSt with out := [[54]], hpSize := 1 }

/-- C4 as stated is false: consuming one byte of the two-byte header of
`midHeaderSt` leaves is_done false although the state is an
uncompressed source with tmp0 drained to size zero and more false. -/
theorem consume_done_condition_counterexample : ¬ consumeDoneClaimLiteral := by
  intro hcl
  have h := hcl midHeaderSt 1 midHeaderSt' rfl
  have h2 := h.mpr (Or.inr (Or.inl ⟨Or.inl rfl, rfl, rfl, rfl⟩))
  exact absurd h2 (by decide)

/-- Witness for consume_done_condition at a concrete input: consuming the
whole view of an empty-style message reaches is_done. -/
def emptyMsgSt : SrSt :=
  { midHeaderSt with st := Style.empty, out := [[72]], hpSize := 1 }

theorem consume_done_condition_witness :
    ∃ s', consume emptyMsgSt 1 = .ok s' ∧ (s'.isDone = true ↔ doneCond emptyMsgSt s') := by
  refine ⟨_, rfl, ?_⟩
  exact (consume_done_condition emptyMsgSt 1 _ rfl).1 rfl (fun _ => by decide)

/-! ## C8: the tmp0 capacity bound enforced by compressed prepare -/

theorem consumeBuffers_error (bs : List (List Nat)) (n : Nat) (f : Fault)
    (h : consumeBuffers bs n = .error f) : f = .invalidArgument := by
  induction bs generalizing n with
  | nil =>
    unfold consumeBuffers at h
    split at h
    · cases h
      rfl
    · cases h
  | cons l ls ih =>
    unfold consumeBuffers at h
    split at h
    · cases h
    · exact ih _ h

theorem filtLoop_no_length (ofilt : Nat → Nat → FiltStep) (isBuffers chunked : Bool)
    (cap : Nat) :
    ∀ fuel k t0 fd bufs t1 more nw tr f,
      filtLoop ofilt isBuffers chunked cap fuel k t0 fd bufs t1 more nw tr
        = some (.error f) → f ≠ .lengthError := by
  intro fuel
  induction fuel with
  | zero =>
    intro k t0 fd bufs t1 more nw tr f h
    cases h
  | succ fuel ih =>
    intro k t0 fd bufs t1 more nw tr f h
    rw [filtLoop] at h
    dsimp only at h
    repeat' split at h
    all_goals try exact ih _ _ _ _ _ _ _ _ _ h
    all_goals cases h
    all_goals try decide
    all_goals
      rename_i heq
      intro hx
      subst hx
      split at heq
      · exact absurd (consumeBuffers_error _ _ _ heq) (by decide)
      · cases heq

/-- The literal claim: in chunked compressed mode the capacity check passes
for every tmp0 capacity of at least chunk_header_len + CRLF + last_chunk +
1 = 26 bytes and a length fault is raised below that bound. -/
def capacityClaimLiteral : Prop :=
  ∀ (osrc : Nat → Nat → SrcResult) (ofilt : Nat → Nat → FiltStep) (fuel : Nat) (s : SrSt),
    s.isDone = false → s.isExpectContinue = false → s.isCompressed = true →
    s.isChunked = true → s.tmp0 = [] →
    ((26 ≤ s.tmp0cap → ∀ t, prepare osrc ofilt fuel s ≠ some (.fault .lengthError, t)) ∧
     (s.tmp0cap < 26 → prepare osrc ofilt fuel s = some (.fault .lengthError, s)))

/-- A drained chunked compressed state whose tmp0 capacity is exactly the
claimed lower bound of 26 bytes. -/
def cap26St : SrSt :=
  { st := Style.stream, isDone := false, isChunked := true, isCompressed := true,
    isExpectContinue := false, more := true, filterDone := false, atHeader := true,
    hpSize := 1, out := [[72]], tmp0 := [], tmp0cap := 26, buf := [], tmp1 := [],
    tmp1cap := 8, ws := 26, wsCap := 64, srcIdx := 0, filtIdx := 0 }

/-- C8 as stated is false: at tmp0 capacity 26 (the claimed bound) the
compressed prepare still raises a length fault, because the enforced bound
is chunked_overhead + zlib flush marker + one byte = 32. -/
theorem compressed_capacity_bound_counterexample : ¬ capacityClaimLiteral := by
  intro hcl
  have h := (hcl osrcW ofiltW 1 cap26St rfl rfl rfl rfl rfl).1 (by decide) cap26St
  exact h rfl

/-- C8 (amended): in compressed mode with tmp0 drained, the lower bound on
tmp0 capacity that prepare enforces is chunked_overhead (25) + zlib flush
marker overhead (6) + one output byte = 32: the capacity check raises a
length fault exactly when the capacity is below 32, and with capacity at
least 32 no length fault is raised by prepare. -/
theorem compressed_capacity_bound (osrc : Nat → Nat → SrcResult)
    (ofilt : Nat → Nat → FiltStep) (fuel : Nat) (s : SrSt)
    (hd : s.isDone = false) (he : s.isExpectContinue = false)
    (hc : s.isCompressed = true) (ht : s.tmp0 = []) :
    (32 ≤ s.tmp0cap → ∀ t, prepare osrc ofilt fuel s ≠ some (.fault .lengthError, t)) ∧
    (s.tmp0cap < 32 → prepare osrc ofilt fuel s = some (.fault .lengthError, s)) := by
  have hprep : prepare osrc ofilt fuel s = prepareCompressed osrc ofilt fuel s := by
    simp [prepare, hd, he, prepareActive, hc]
  have hnd : ¬ 0 < s.tmp0.length := by simp [ht]
  constructor
  · intro hcap t hcontra
    rw [hprep, prepareCompressed] at hcontra
    rw [if_neg hnd] at hcontra
    rw [if_neg (show ¬ s.tmp0cap < 25 + 6 + 1 by omega)] at hcontra
    dsimp only at hcontra
    repeat' split at hcontra
    all_goals try cases hcontra
    all_goals
      rename_i heq
      exact filtLoop_no_length ofilt _ _ _ _ _ _ _ _ _ _ _ _ _ heq rfl
  · intro hcap
    rw [hprep, prepareCompressed]
    rw [if_neg hnd]
    rw [if_pos (show s.tmp0cap < 25 + 6 + 1 by omega)]

/-- Witness for compressed_capacity_bound: at capacity 31 the fault is
raised, at capacity 32 prepare succeeds without a length fault. -/
def cap31St : SrSt := { cap26St with tmp0cap := 31, ws := 31 }

theorem compressed_capacity_bound_witness :
    prepare osrcW ofiltW 1 cap31St = some (.fault .lengthError, cap31St) := by
  exact (compressed_capacity_bound osrcW ofiltW 1 cap31St rfl rfl rfl rfl).2 (by decide)

/-! ## C9: idempotence of prepare in non-compressed modes -/

/-- The literal claim: in every non-compressed mode (empty, buffers,
source or stream style with identity coding), two successive prepare calls
with no intervening consume return views with identical concatenated byte
contents (hence the same total length). -/
def idempotenceClaimLiteral : Prop :=
  ∀ (osrc : Nat → Nat → SrcResult) (ofilt : Nat → Nat → FiltStep) (fuel : Nat)
    (s : SrSt) (v : List Nat) (s' : SrSt),
    s.isCompressed = false →
    prepare osrc ofilt fuel s = some (.view v, s') →
    ∀ v2 s2, prepare osrc ofilt fuel s' = some (.view v2, s2) → v2 = v

/-- An uncompressed unchunked source state whose source still has body data
pending. -/
def srcPendingSt : SrSt :=
  { st := Style.source, isDone := false, isChunked := false, isCompressed := false,
    isExpectContinue := false, more := true, filterDone := false, atHeader := true,
    hpSize := 1, out := [[72]], tmp0 := [], tmp0cap := 30, buf := [], tmp1 := [],
    tmp1cap := 0, ws := 30, wsCap := 64, srcIdx := 0, filtIdx := 0 }

def osrcC9 : Nat → Nat → SrcResult :=
  fun k _ => if k = 0 then ⟨[97], false, 0⟩ else ⟨[98], true, 0⟩

def srcPendingSt1 : SrSt :=
  { srcPendingSt with srcIdx := 1, tmp0 := [97] }

def srcPendingSt2 : SrSt :=
  { srcPendingSt with srcIdx := 2, tmp0 := [97, 98], more := false }

/-- C9 as stated is false: in source style a second prepare with no
intervening consume pulls more data from the source, so the two views
differ (header·"a" versus header·"ab"). -/
theorem prepare_idempotent_counterexample : ¬ idempotenceClaimLiteral := by
  intro hcl
  have h := hcl osrcC9 ofiltW 1 srcPendingSt [72, 97] srcPendingSt1 rfl rfl
    [72, 97, 98] srcPendingSt2 rfl
  exact absurd h (by decide)

/-- C9 (amended): in non-compressed modes, prepare is idempotent for the
empty, buffers and stream styles, and for the source style once `more` is
false (no further body data to pull): a successful prepare returning a view
leaves the state unchanged and a second prepare returns the identical view.
For a source with data pending the second call may extend the view, as the
counterexample shows. -/
theorem prepare_idempotent (osrc : Nat → Nat → SrcResult) (ofilt : Nat → Nat → FiltStep)
    (fuel : Nat) (s : SrSt) (v : List Nat) (s' : SrSt)
    (hc : s.isCompressed = false)
    (hst : s.st = Style.empty ∨ s.st = Style.buffers ∨ s.st = Style.stream ∨
      (s.st = Style.source ∧ s.more = false))
    (h : prepare osrc ofilt fuel s = some (.view v, s')) :
    s' = s ∧ prepare osrc ofilt fuel s' = some (.view v, s') := by
  rcases hd : s.isDone with _ | _
  · rcases he : s.isExpectContinue with _ | _
    · rw [prepare, if_neg (by simp [hd]), if_neg (by simp [he])] at h
      rw [prepareActive, if_neg (by simp [hc])] at h
      rcases hst with hst | hst | hst | ⟨hst, hm⟩
      · rw [hst] at h
        dsimp only at h
        cases h
        refine ⟨rfl, ?_⟩
        rw [prepare, if_neg (by simp [hd]), if_neg (by simp [he])]
        rw [prepareActive, if_neg (by simp [hc]), hst]
      · rw [hst] at h
        dsimp only at h
        cases h
        refine ⟨rfl, ?_⟩
        rw [prepare, if_neg (by simp [hd]), if_neg (by simp [he])]
        rw [prepareActive, if_neg (by simp [hc]), hst]
      · rw [hst] at h
        dsimp only at h
        split at h
        · cases h
        · cases h
          rename_i hcond
          refine ⟨rfl, ?_⟩
          rw [prepare, if_neg (by simp [hd]), if_neg (by simp [he])]
          rw [prepareActive, if_neg (by simp [hc]), hst]
          dsimp only
          rw [if_neg hcond]
      · rw [hst] at h
        dsimp only at h
        rw [if_neg (by simp [hm])] at h
        cases h
        refine ⟨rfl, ?_⟩
        rw [prepare, if_neg (by simp [hd]), if_neg (by simp [he])]
        rw [prepareActive, if_neg (by simp [hc]), hst]
        dsimp only
        rw [if_neg (by simp [hm])]
    · rw [prepare, if_neg (by simp [hd]), if_pos he] at h
      rcases ha : s.atHeader with _ | _
      · rw [if_neg (by simp [ha])] at h
        cases h
      · rw [if_pos ha] at h
        cases h
        refine ⟨rfl, ?_⟩
        rw [prepare, if_neg (by simp [hd]), if_pos he, if_pos ha]
  · rw [prepare, if_pos hd] at h
    cases h

/-- Witness for prepare_idempotent: a concrete buffers-style state. -/
def buffersSt : SrSt :=
  { st := Style.buffers, isDone := false, isChunked := false, isCompressed := false,
    isExpectContinue := false, more := false, filterDone := false, atHeader := true,
    hpSize := 1, out := [[72], [97, 98]], tmp0 := [], tmp0cap := 0, buf := [[97, 98]],
    tmp1 := [], tmp1cap := 0, ws := 64, wsCap := 64, srcIdx := 0, filtIdx := 0 }

theorem prepare_idempotent_witness :
    buffersSt = buffersSt ∧
    prepare osrcW ofiltW 1 buffersSt = some (.view [72, 97, 98], buffersSt) := by
  exact prepare_idempotent osrcW ofiltW 1 buffersSt [72, 97, 98] buffersSt rfl
    (Or.inr (Or.inl rfl)) rfl

/-! ## C1: exact delivery for identity unchunked buffers serialization -/

theorem consumeBuffers_flatten : ∀ (bs : List (List Nat)) (n : Nat) (bs' : List (List Nat)),
    consumeBuffers bs n = .ok bs' → bs'.flatten = bs.flatten.drop n := by
  intro bs
  induction bs with
  | nil =>
    intro n bs' h
    unfold consumeBuffers at h
    split at h
    · cases h
    · cases h
      simp
  | cons l ls ih =>
    intro n bs' h
    unfold consumeBuffers at h
    split at h
    · cases h
      rename_i hlt
      simp only [List.flatten_cons]
      rw [List.drop_append_of_le_length (by omega)]
    · rename_i hge
      have hx := ih _ _ h
      simp only [List.flatten_cons]
      rw [hx]
      have hn : n = l.length + (n - l.length) := by omega
      rw [hn, List.drop_append]
      congr 1
      omega

theorem consume_buffers_flatten (s : SrSt) (n : Nat) (s' : SrSt)
    (hst : s.st = Style.buffers) (hc : s.isCompressed = false)
    (he : s.isExpectContinue = false) (h : consume s n = .ok s') :
    s'.out.flatten = s.out.flatten.drop n ∧ s'.st = Style.buffers ∧
    s'.isCompressed = false ∧ s'.isExpectContinue = false ∧
    (s'.isDone = true → s'.out = []) := by
  have hstyle : ∀ t t' k, t.st = Style.buffers → t.isCompressed = false →
      t.isExpectContinue = false → consumeStyle t k = .ok t' →
      t'.out.flatten = t.out.flatten.drop k ∧ t'.st = Style.buffers ∧
      t'.isCompressed = false ∧ t'.isExpectContinue = false ∧
      (t'.isDone = true → t'.out = []) := by
    intro t t' k h1 h2 h3 hcs
    unfold consumeStyle at hcs
    rw [h1] at hcs
    dsimp only at hcs
    rw [if_neg (by simp [h2])] at hcs
    split at hcs
    · cases hcs
    · cases hcs
      rename_i out1 hcb
      refine ⟨consumeBuffers_flatten _ _ _ hcb, rfl, h2, h3, ?_⟩
      intro hdone
      simpa [List.isEmpty_iff] using hdone
  unfold consume at h
  split at h
  · cases h
  · rename_i hdmain
    split at h
    · rename_i hex
      exact absurd hex (by simp [he])
    · split at h
      · rename_i ha
        split at h
        · rename_i hn
          split at h
          · cases h
          · cases h
            rename_i out1 hcb
            refine ⟨consumeBuffers_flatten _ _ _ hcb, hst, hc, he, ?_⟩
            intro hdone
            exact absurd (by simpa using hdone) hdmain
        · rename_i hn
          split at h
          · cases h
          · rename_i out1 hcb
            have hx := hstyle _ _ (n - s.hpSize) (by simpa using hst)
              (by simpa using hc) (by simpa using he) h
            rcases hx with ⟨h4, h5, h6, h7, h8⟩
            refine ⟨?_, h5, h6, h7, h8⟩
            rw [h4]
            dsimp only
            rw [consumeBuffers_flatten _ _ _ hcb, List.drop_drop]
            congr 1
            omega
      · exact hstyle s s' n hst hc he h

theorem session_delivers (osrc : Nat → Nat → SrcResult) (ofilt : Nat → Nat → FiltStep)
    (fuel : Nat) : ∀ (ns : List Nat) (s : SrSt) (d : List Nat) (sf : SrSt),
    s.st = Style.buffers → s.isCompressed = false → s.isExpectContinue = false →
    (s.isDone = true → s.out = []) →
    session osrc ofilt fuel s ns = some (d, sf) →
    d ++ sf.out.flatten = s.out.flatten ∧ (sf.isDone = true → sf.out = []) := by
  intro ns
  induction ns with
  | nil =>
    intro s d sf h1 h2 h3 h4 h
    cases h
    exact ⟨rfl, h4⟩
  | cons n ns ih =>
    intro s d sf h1 h2 h3 h4 h
    rw [session] at h
    rcases hd : s.isDone with _ | _
    · have hp : prepare osrc ofilt fuel s = some (.view s.out.flatten, s) := by
        rw [prepare, if_neg (by simp [hd]), if_neg (by simp [h3])]
        rw [prepareActive, if_neg (by simp [h2]), h1]
      rw [hp] at h
      dsimp only at h
      rcases hcons : consume s n with f | s2
      · rw [hcons] at h
        cases h
      · rw [hcons] at h
        dsimp only at h
        have hcf := consume_buffers_flatten s n s2 h1 h2 h3 hcons
        rcases hcf with ⟨h5, h6, h7, h8, h9⟩
        rcases hsess : session osrc ofilt fuel s2 ns with _ | pr
        · rw [hsess] at h
          cases h
        · rw [hsess] at h
          cases h
          have hx := ih s2 pr.1 pr.2 h6 h7 h8 h9 hsess
          rcases hx with ⟨h10, h11⟩
          refine ⟨?_, h11⟩
          rw [List.append_assoc, h10, h5, List.take_append_drop]
    · have hp : prepare osrc ofilt fuel s = some (.fault .logicError, s) := by
        rw [prepare, if_pos hd]
      rw [hp] at h
      cases h

/-- C1: for a message with identity content-coding and no chunked
transfer-encoding serialized in buffers style (with no expect-continue
pause), the concatenation of all bytes delivered across the session's
prepare/consume cycles, once the serializer reaches is_done, equals exactly
the header octets followed by the body bytes, in order, with nothing added
or lost. -/
theorem buffers_identity_delivery (s : SrSt) (m : Msg) (bufs : List (List Nat))
    (fspace : Nat) (s0 : SrSt) (osrc : Nat → Nat → SrcResult)
    (ofilt : Nat → Nat → FiltStep) (fuel : Nat) (ns : List Nat) (d : List Nat) (sf : SrSt)
    (hident : m.identity = true) (hchunk : m.chunked = false)
    (hexp : m.expect100 = false)
    (hstart : start_buffers s m bufs fspace = .ok s0)
    (hsess : session osrc ofilt fuel s0 ns = some (d, sf))
    (hdone : sf.isDone = true) :
    d = m.header ++ bufs.flatten := by
  unfold start_buffers at hstart
  rw [start_init, if_pos hident] at hstart
  dsimp only at hstart
  rw [if_neg (show ¬(!m.identity) = true by simp [hident])] at hstart
  rw [if_pos (show (!m.chunked) = true by simp [hchunk])] at hstart
  cases hstart
  have hx := session_delivers osrc ofilt fuel ns _ d sf rfl (by simp [hident])
    (by simpa using hexp) (by intro hcontra; simp at hcontra) hsess
  rcases hx with ⟨h1, h2⟩
  rw [h2 hdone] at h1
  simpa using h1

/-- Witness for buffers_identity_delivery: header "H", body "ab" split in
two buffers, delivered in one cycle of three bytes. -/
def msgC1 : Msg := { header := [72], chunked := false, identity := true, expect100 := false }

/-! ## C3: one chunk per prepare in chunked compressed mode -/

theorem filtLoop_spec (ofilt : Nat → Nat → FiltStep) (isBuffers chunked : Bool)
    (cap : Nat) :
    ∀ (fuel k : Nat) (t0 : List Nat) (fd : Bool) (bufs : List (List Nat)) (t1 : List Nat)
      (more : Bool) (nw : Nat) (tr : List FiltStep) (r : LoopRes),
      filtLoop ofilt isBuffers chunked cap fuel k t0 fd bufs t1 more nw tr
        = some (.ok r) →
      ∃ ntr : List FiltStep,
        r.trace = tr ++ ntr ∧
        r.tmp0 = t0 ++ (ntr.map FiltStep.out).flatten ∧
        r.fd = (fd || ntr.any FiltStep.finished) ∧
        r.nw = nw + ((ntr.map FiltStep.out).map List.length).sum := by
  intro fuel
  induction fuel with
  | zero =>
    intro k t0 fd bufs t1 more nw tr r h
    cases h
  | succ fuel ih =>
    intro k t0 fd bufs t1 more nw tr r h
    rw [filtLoop] at h
    dsimp only at h
    split at h
    · split at h
      · cases h
      · cases h
        exact ⟨[], by simp⟩
    · split at h
      · cases h
      · split at h
        · cases h
          rename_i hout
          refine ⟨[ofilt k (outWindow chunked cap t0.length)], ?_, ?_, ?_, ?_⟩
          · rfl
          · have : (ofilt k (outWindow chunked cap t0.length)).out = [] := by
              simpa using hout
            simp [this]
          · simp
          · have : (ofilt k (outWindow chunked cap t0.length)).out = [] := by
              simpa using hout
            simp [this]
        · have hx := ih _ _ _ _ _ _ _ _ _ h
          rcases hx with ⟨ntr, e1, e2, e3, e4⟩
          refine ⟨ofilt k (outWindow chunked cap t0.length) :: ntr, ?_, ?_, ?_, ?_⟩
          · rw [e1]
            simp
          · rw [e2]
            simp
          · rw [e3]
            simp [Bool.or_assoc]
          · rw [e4]
            simp
            omega

/-- C3: in chunked compressed mode, every successful prepare appends to the
drained tmp0 exactly one chunk: the 18-byte chunk-size header reserved up
front and backfilled with the number of compressed output bytes the filter
produced during that call, then those compressed bytes, then the CRLF
trailer; and the last-chunk literal is appended in the same call if and
only if the filter reported finished (recorded in filter_done, which enters
the call false). -/
theorem compressed_chunked_one_chunk (osrc : Nat → Nat → SrcResult)
    (ofilt : Nat → Nat → FiltStep) (fuel : Nat) (s : SrSt) (v : List Nat) (s' : SrSt)
    (hc : s.isCompressed = true) (hch : s.isChunked = true)
    (hfd : s.filterDone = false) (he : s.isExpectContinue = false)
    (hp : prepare osrc ofilt fuel s = some (.view v, s')) :
    ∃ data : List Nat,
      s'.tmp0 = chunkHeaderBytes data.length ++ data ++ crlfBytes ++
        (if s'.filterDone = true then lastChunkBytes else []) ∧
      v = (if s.atHeader = true then s.out.headD [] else []) ++ s'.tmp0 ∧
      ∃ tr : List FiltStep, data = (tr.map FiltStep.out).flatten ∧
        s'.filterDone = (tr.any FiltStep.finished) := by
  rcases hd : s.isDone with _ | _
  · rw [prepare, if_neg (by simp [hd]), if_neg (by simp [he])] at hp
    rw [prepareActive, if_pos hc, prepareCompressed] at hp
    rw [hch] at hp
    dsimp only at hp
    split at hp
    · cases hp
    · split at hp
      · cases hp
      · split at hp
        · cases hp
        · split at hp
          · cases hp
          · cases hp
          · rename_i r hloop
            cases hp
            have hx := filtLoop_spec ofilt _ _ _ _ _ _ _ _ _ _ _ _ _ hloop
            rcases hx with ⟨ntr, e1, e2, e3, e4⟩
            refine ⟨(ntr.map FiltStep.out).flatten, ?_, ?_, ntr, rfl, ?_⟩
            · dsimp only
              rw [e2]
              rw [List.drop_left' (by simp)]
              rw [e4]
              simp [List.length_flatten]
            · dsimp only [viewOf]
              by_cases hsrc : s.st = Style.source
              · simp only [if_pos hsrc]
              · simp only [if_neg hsrc]
            · dsimp only
              rw [e3]
              by_cases hsrc : s.st = Style.source
              · simp [hsrc, hfd]
              · simp [hsrc, hfd]
  · rw [prepare, if_pos hd] at hp
    cases hp

/-- Witness for compressed_chunked_one_chunk: a filter that emits one byte
and then reports finished with no further output. -/
def c3St : SrSt :=
  { st := Style.stream, isDone := false, isChunked := true, isCompressed := true,
    isExpectContinue := false, more := true, filterDone := false, atHeader := true,
    hpSize := 1, out := [[72]], tmp0 := [], tmp0cap := 40, buf := [], tmp1 := [],
    tmp1cap := 8, ws := 40, wsCap := 64, srcIdx := 0, filtIdx := 0 }

def ofiltC3 : Nat → Nat → FiltStep :=
  fun k _ => if k = 0 then ⟨0, [7], false⟩ else ⟨0, [], true⟩

def c3StAfter : SrSt :=
  { c3St with
    tmp0 := chunkHeaderBytes 1 ++ [7] ++ crlfBytes ++ lastChunkBytes,
    filterDone := true, filtIdx := 2 }

def c3View : List Nat := [72] ++ c3StAfter.tmp0

theorem compressed_chunked_one_chunk_witness :
    ∃ data : List Nat,
      c3StAfter.tmp0 = chunkHeaderBytes data.length ++ data ++ crlfBytes ++
        (if c3StAfter.filterDone = true then lastChunkBytes else []) ∧
      c3View = (if c3St.atHeader = true then c3St.out.headD [] else []) ++ c3StAfter.tmp0 ∧
      ∃ tr : List FiltStep, data = (tr.map FiltStep.out).flatten ∧
        c3StAfter.filterDone = (tr.any FiltStep.finished) := by
  exact compressed_chunked_one_chunk osrcW ofiltC3 3 c3St c3View c3StAfter
    rfl rfl rfl rfl (by decide)

theorem buffers_identity_delivery_witness :
    ∃ s0 sf, start_buffers dirtySt msgC1 [[97], [98]] 0 = .ok s0 ∧
      session osrcW ofiltW 1 s0 [3] = some ([72, 97, 98], sf) ∧ sf.isDone = true ∧
      [72, 97, 98] = msgC1.header ++ [[97], [98]].flatten := by
  refine ⟨_, _, rfl, rfl, rfl, ?_⟩
  exact buffers_identity_delivery dirtySt msgC1 [[97], [98]] 0 _ osrcW ofiltW 1 [3]
    [72, 97, 98] _ rfl rfl rfl rfl rfl rfl

end HttpProto
